import Mathlib

set_option autoImplicit false

/-!
Verification of the worker-pool core of the codeulator server.

The definitions below are shallow embeddings of the TypeScript sources:
 - `src/server/src/applicationPool.ts` (`PooledApplication.performOperation`,
   `PooledApplication.restart`, `ApplicationPool.acquire`, `ApplicationPool.release`,
   `ApplicationPool._monitorMemoryPressure`, `ApplicationPool._disposeBatch`)
 - `src/server/src/filesystem.ts` (`ExtensionClient.sendCommand`, the inbound
   message handler, `ExtensionClient.stat`, `ExtensionClient.findValidPaths`)
 - `src/server/src/server.ts` (`Server.finalizeLease`)
 - the error module (`SafeError`, `sanitizeError`, `handleErrors`)
 - `src/fsproxy/src/client.ts` (remote path normalization).

JavaScript is single threaded and cooperatively scheduled, so stateful code is
modelled as a step function over an explicit state, driven by a list of events;
each event is one atomic (synchronous) slice of execution between suspension
points.
-/

namespace Codeulator

/-! ## Operation queue: `PooledApplication.performOperation`

`performOperation(fn)` increments the global queued counter, captures
`this.generation`, and appends a wrapper to the promise chain `this.lock`
(`lock.then(wrappedFn)`; the read and write of `this.lock` are synchronous, so
appends are atomic).  When its turn arrives the wrapper decrements the queued
counter and, only if the generation still matches, increments the active
counter, runs `fn`, catches any thrown value into `result` instead of
rejecting, and decrements the active counter.  The submitting caller awaits
the wrapper's settlement and throws `result` again only when
`result instanceof Error`.

A body's behaviour is abstracted to: return normally, throw a value that is an
`Error` instance, or throw a value that is not an `Error` instance. -/

/-- How an operation body settles when invoked. -/
inductive Outcome
  | ok
  | throwErr (code : Nat)
  | throwVal (code : Nat)
deriving DecidableEq, Repr

/-- A wrapper sitting in the promise chain: submission id (assigned in
submission order), the generation captured at submission time, and the body. -/
structure Sub where
  id : Nat
  gen : Nat
  outcome : Outcome
deriving DecidableEq, Repr

/-- Atomic slices of the event loop relevant to one worker's queue:
a `performOperation` call, a synchronous `restart()` (which increments the
generation), the chain starting the next wrapper (possible only when the
previous wrapper has settled), and the running body settling. -/
inductive QEv
  | submit (o : Outcome)
  | restart
  | start
  | finish
deriving DecidableEq, Repr

/-- State of one worker's queue: current generation, the id counter, the
pending wrappers (FIFO), the wrapper whose body is currently running, the ids
of bodies that were actually invoked (in invocation order), the two global
counters, and the settled caller results (`none` = the caller's await
completed normally, `some c` = it re-threw the Error instance `c`). -/
structure QS where
  generation : Nat
  nextId : Nat
  chain : List Sub
  running : Option Sub
  log : List Nat
  queued : Nat
  active : Nat
  results : List (Nat × Option Nat)
deriving DecidableEq, Repr

/-- A fresh `PooledApplication`: `generation = 1`, empty chain. -/
def initQS : QS :=
  { generation := 1, nextId := 0, chain := [], running := none, log := [],
    queued := 0, active := 0, results := [] }

/-- What the submitting caller observes once the wrapper settles:
`performOperation` re-throws `result` only when `result instanceof Error`,
so a thrown non-Error value is swallowed and the await completes normally. -/
def callerThrow : Outcome → Option Nat
  | .ok => none
  | .throwErr c => some c
  | .throwVal _ => none

/-- One event-loop step of the queue model. -/
def qstep (s : QS) : QEv → QS
  | .submit o =>
    { s with nextId := s.nextId + 1
             queued := s.queued + 1
             chain := s.chain ++ [⟨s.nextId, s.generation, o⟩] }
  | .restart => { s with generation := s.generation + 1 }
  | .start =>
    match s.running, s.chain with
    | none, h :: t =>
      if s.generation = h.gen then
        { s with chain := t, queued := s.queued - 1, active := s.active + 1,
                 running := some h, log := s.log ++ [h.id] }
      else
        { s with chain := t, queued := s.queued - 1,
                 results := s.results ++ [(h.id, none)] }
    | _, _ => s
  | .finish =>
    match s.running with
    | some h =>
      { s with running := none, active := s.active - 1,
               results := s.results ++ [(h.id, callerThrow h.outcome)] }
    | none => s

/-- Run the queue model over a list of events. -/
def qrun (s : QS) (evs : List QEv) : QS := evs.foldl qstep s

lemma qrun_append (s : QS) (l₁ l₂ : List QEv) :
    qrun s (l₁ ++ l₂) = qrun (qrun s l₁) l₂ :=
  List.foldl_append qstep s l₁ l₂

lemma qrun_cons (s : QS) (e : QEv) (l : List QEv) :
    qrun s (e :: l) = qrun (qstep s e) l := rfl

lemma qrun_nil (s : QS) : qrun s [] = s := rfl

/-- Invariant tying together the queue state: the active counter mirrors
whether a body is running, invoked bodies are logged in strictly increasing
submission order, pending wrappers are in submission order and were submitted
after everything already logged, and all recorded ids were issued. -/
structure QInv (s : QS) : Prop where
  active_eq : s.active = (if s.running.isSome then 1 else 0)
  log_sorted : s.log.Pairwise (· < ·)
  chain_sorted : (s.chain.map Sub.id).Pairwise (· < ·)
  log_lt_chain : ∀ i ∈ s.log, ∀ sub ∈ s.chain, i < sub.id
  chain_lt_next : ∀ sub ∈ s.chain, sub.id < s.nextId
  log_lt_next : ∀ i ∈ s.log, i < s.nextId
  running_lt_next : ∀ sub, s.running = some sub → sub.id < s.nextId

lemma qinv_init : QInv initQS := by
  constructor <;> simp [initQS]

lemma qinv_step {s : QS} (hs : QInv s) (e : QEv) : QInv (qstep s e) := by
  obtain ⟨h1, h2, h3, h4, h5, h6, h7⟩ := hs
  cases e with
  | submit o =>
    refine ⟨by simpa [qstep] using h1, by simpa [qstep] using h2, ?_, ?_, ?_, ?_, ?_⟩
    · simp only [qstep, List.map_append, List.map_cons, List.map_nil]
      refine List.pairwise_append.2 ⟨h3, by simp, ?_⟩
      intro a ha b hb
      simp only [List.mem_map] at ha
      obtain ⟨sub, hsub, rfl⟩ := ha
      simp only [List.mem_singleton] at hb
      subst hb
      exact h5 sub hsub
    · intro i hi sub hsub
      simp only [qstep] at hi hsub
      rcases List.mem_append.1 hsub with h | h
      · exact h4 i hi sub h
      · simp only [List.mem_singleton] at h
        subst h
        exact h6 i hi
    · intro sub hsub
      simp only [qstep] at hsub ⊢
      rcases List.mem_append.1 hsub with h | h
      · exact Nat.lt_succ_of_lt (h5 sub h)
      · simp only [List.mem_singleton] at h
        subst h
        exact Nat.lt_succ_self _
    · intro i hi
      simp only [qstep] at hi ⊢
      exact Nat.lt_succ_of_lt (h6 i hi)
    · intro sub hsub
      simp only [qstep] at hsub ⊢
      exact Nat.lt_succ_of_lt (h7 sub hsub)
  | restart =>
    exact ⟨h1, h2, h3, h4, h5, h6, h7⟩
  | start =>
    match hr : s.running, hc : s.chain with
    | none, [] =>
      simp only [qstep, hr, hc]
      exact ⟨h1, h2, hc ▸ h3, hc ▸ h4, hc ▸ h5, h6, by simp [hr]⟩
    | none, h :: t =>
      have hmem : h ∈ s.chain := by rw [hc]; exact List.mem_cons_self h t
      have htail : ∀ sub ∈ t, sub ∈ s.chain := fun sub hsub => by
        rw [hc]; exact List.mem_cons_of_mem h hsub
      have hlt_tail : ∀ sub ∈ t, h.id < sub.id := by
        have := h3
        rw [hc] at this
        simp only [List.map_cons, List.pairwise_cons] at this
        intro sub hsub
        exact this.1 _ (List.mem_map_of_mem Sub.id hsub)
      by_cases hg : s.generation = h.gen
      · simp only [qstep, hr, hc, if_pos hg]
        refine ⟨by simp [hr, h1], ?_, ?_, ?_, ?_, ?_, ?_⟩
        · refine List.pairwise_append.2 ⟨h2, by simp, ?_⟩
          intro a ha b hb
          simp only [List.mem_singleton] at hb
          subst hb
          exact h4 a ha h hmem
        · have := h3
          rw [hc] at this
          simp only [List.map_cons, List.pairwise_cons] at this
          exact this.2
        · intro i hi sub hsub
          rcases List.mem_append.1 hi with hil | hil
          · exact h4 i hil sub (htail sub hsub)
          · simp only [List.mem_singleton] at hil
            subst hil
            exact hlt_tail sub hsub
        · intro sub hsub
          exact h5 sub (htail sub hsub)
        · intro i hi
          rcases List.mem_append.1 hi with hil | hil
          · exact h6 i hil
          · simp only [List.mem_singleton] at hil
            subst hil
            exact h5 h hmem
        · intro sub hsub
          simp only [Option.some.injEq] at hsub
          subst hsub
          exact h5 h hmem
      · simp only [qstep, hr, hc, if_neg hg]
        refine ⟨by simp [hr, h1], h2, ?_, ?_, ?_, h6, by simp [hr]⟩
        · have := h3
          rw [hc] at this
          simp only [List.map_cons, List.pairwise_cons] at this
          exact this.2
        · intro i hi sub hsub
          exact h4 i hi sub (htail sub hsub)
        · intro sub hsub
          exact h5 sub (htail sub hsub)
    | some rsub, _ =>
      simp only [qstep, hr]
      exact ⟨h1, h2, h3, h4, h5, h6, h7⟩
  | finish =>
    match hr : s.running with
    | some rsub =>
      simp only [qstep, hr]
      exact ⟨by simp [hr] at h1; simp [h1], h2, h3, h4, h5, h6, by simp⟩
    | none =>
      simp only [qstep, hr]
      exact ⟨h1, h2, h3, h4, h5, h6, h7⟩

lemma qinv_run {s : QS} (hs : QInv s) (evs : List QEv) : QInv (qrun s evs) := by
  induction evs generalizing s with
  | nil => exact hs
  | cons e l ih => exact ih (qinv_step hs e)

/-- Shape of a `submit` step. -/
lemma qstep_submit (s : QS) (o : Outcome) :
    qstep s (.submit o) =
      { s with nextId := s.nextId + 1, queued := s.queued + 1,
               chain := s.chain ++ [⟨s.nextId, s.generation, o⟩] } := rfl

/-- Shape of a `restart` step. -/
lemma qstep_restart (s : QS) :
    qstep s .restart = { s with generation := s.generation + 1 } := rfl

/-- Shape of a `start` step that skips the head wrapper (stale generation). -/
lemma qstep_start_skip (s : QS) (hd : Sub) (t : List Sub)
    (hr : s.running = none) (hc : s.chain = hd :: t) (hg : s.generation ≠ hd.gen) :
    qstep s .start =
      { s with chain := t, queued := s.queued - 1, results := s.results ++ [(hd.id, none)] } := by
  simp [qstep, hr, hc, hg]

/-- Shape of a `start` step that actually invokes the head wrapper's body. -/
lemma qstep_start_hit (s : QS) (hd : Sub) (t : List Sub)
    (hr : s.running = none) (hc : s.chain = hd :: t) (hg : s.generation = hd.gen) :
    qstep s .start =
      { s with chain := t, queued := s.queued - 1, active := s.active + 1,
               running := some hd, log := s.log ++ [hd.id] } := by
  simp [qstep, hr, hc, hg]

/-- A `start` step with an empty chain does nothing. -/
lemma qstep_start_idle (s : QS) (hc : s.chain = []) : qstep s .start = s := by
  cases hr : s.running <;> simp [qstep, hr, hc]

/-- A `start` step while a body is running does nothing (the chain fires the
next wrapper only after the previous one settles). -/
lemma qstep_start_busy (s : QS) (rsub : Sub) (hr : s.running = some rsub) :
    qstep s .start = s := by
  simp [qstep, hr]

/-- Shape of a `finish` step while a body is running. -/
lemma qstep_finish_some (s : QS) (rsub : Sub) (hr : s.running = some rsub) :
    qstep s .finish =
      { s with running := none, active := s.active - 1,
               results := s.results ++ [(rsub.id, callerThrow rsub.outcome)] } := by
  simp [qstep, hr]

/-- A `finish` step with no running body does nothing. -/
lemma qstep_finish_none (s : QS) (hr : s.running = none) : qstep s .finish = s := by
  simp [qstep, hr]

/-- `i` is no longer (and cannot again become) a pending submission:
it was issued already, is not in the chain, and is not running. -/
def NotPending (s : QS) (i : Nat) : Prop :=
  i < s.nextId ∧ (∀ sub ∈ s.chain, sub.id ≠ i) ∧ (∀ sub, s.running = some sub → sub.id ≠ i)

lemma notPending_step {s : QS} {i : Nat} (h : NotPending s i) (e : QEv) :
    NotPending (qstep s e) i ∧ ((i ∈ (qstep s e).log) ↔ i ∈ s.log) := by
  obtain ⟨hlt, hchain, hrun⟩ := h
  cases e with
  | submit o =>
    rw [qstep_submit]
    refine ⟨⟨Nat.lt_succ_of_lt hlt, ?_, ?_⟩, Iff.rfl⟩
    · intro sub hsub
      rcases List.mem_append.1 hsub with hl | hl
      · exact hchain sub hl
      · simp only [List.mem_singleton] at hl
        subst hl
        exact fun hcontra => absurd hcontra.symm (Nat.ne_of_lt hlt)
    · intro sub hsub
      exact hrun sub hsub
  | restart =>
    rw [qstep_restart]
    exact ⟨⟨hlt, hchain, hrun⟩, Iff.rfl⟩
  | start =>
    cases hr : s.running with
    | some rsub =>
      rw [qstep_start_busy s rsub hr]
      exact ⟨⟨hlt, hchain, hrun⟩, Iff.rfl⟩
    | none =>
      cases hc : s.chain with
      | nil =>
        rw [qstep_start_idle s hc]
        exact ⟨⟨hlt, hchain, hrun⟩, Iff.rfl⟩
      | cons hd t =>
        have hhd : hd.id ≠ i := hchain hd (by rw [hc]; exact List.mem_cons_self hd t)
        have htl : ∀ sub ∈ t, sub.id ≠ i := fun sub hsub =>
          hchain sub (by rw [hc]; exact List.mem_cons_of_mem hd hsub)
        by_cases hg : s.generation = hd.gen
        · rw [qstep_start_hit s hd t hr hc hg]
          refine ⟨⟨hlt, htl, ?_⟩, ?_⟩
          · intro sub hsub
            simp only [Option.some.injEq] at hsub
            subst hsub
            exact hhd
          · simp only [List.mem_append, List.mem_singleton]
            exact ⟨fun hor => hor.elim id fun heq => absurd heq.symm hhd, Or.inl⟩
        · rw [qstep_start_skip s hd t hr hc hg]
          exact ⟨⟨hlt, htl, hrun⟩, Iff.rfl⟩
  | finish =>
    cases hr : s.running with
    | some rsub =>
      rw [qstep_finish_some s rsub hr]
      exact ⟨⟨hlt, hchain, by simp⟩, Iff.rfl⟩
    | none =>
      rw [qstep_finish_none s hr]
      exact ⟨⟨hlt, hchain, hrun⟩, Iff.rfl⟩

lemma notPending_run {s : QS} {i : Nat} (h : NotPending s i) (evs : List QEv) :
    NotPending (qrun s evs) i ∧ ((i ∈ (qrun s evs).log) ↔ i ∈ s.log) := by
  induction evs generalizing s with
  | nil => exact ⟨h, Iff.rfl⟩
  | cons e l ih =>
    obtain ⟨h1, h2⟩ := notPending_step h e
    obtain ⟨h3, h4⟩ := ih h1
    exact ⟨h3, h4.trans h2⟩

/-- Settled caller results are never removed or altered by later events. -/
lemma results_mono_step (s : QS) (e : QEv) {p : Nat × Option Nat} (h : p ∈ s.results) :
    p ∈ (qstep s e).results := by
  cases e with
  | submit o => rw [qstep_submit]; exact h
  | restart => rw [qstep_restart]; exact h
  | start =>
    cases hr : s.running with
    | some rsub => rw [qstep_start_busy s rsub hr]; exact h
    | none =>
      cases hc : s.chain with
      | nil => rw [qstep_start_idle s hc]; exact h
      | cons hd t =>
        by_cases hg : s.generation = hd.gen
        · rw [qstep_start_hit s hd t hr hc hg]; exact h
        · rw [qstep_start_skip s hd t hr hc hg]
          exact List.mem_append.2 (Or.inl h)
  | finish =>
    cases hr : s.running with
    | some rsub =>
      rw [qstep_finish_some s rsub hr]
      exact List.mem_append.2 (Or.inl h)
    | none => rw [qstep_finish_none s hr]; exact h

lemma results_mono_run (s : QS) (evs : List QEv) {p : Nat × Option Nat} (h : p ∈ s.results) :
    p ∈ (qrun s evs).results := by
  induction evs generalizing s with
  | nil => exact h
  | cons e l ih => exact ih _ (results_mono_step s e h)

/-- Erase every submitted body's behaviour, replacing it by a body that
returns normally.  Used to show that failures do not influence scheduling. -/
def maskEv : QEv → QEv
  | .submit _ => .submit .ok
  | .restart => .restart
  | .start => .start
  | .finish => .finish

/-- Erase one wrapper's body behaviour. -/
def maskSub (sub : Sub) : Sub := { sub with outcome := .ok }

/-- Erase all body behaviours recorded in a state. -/
def maskQS (s : QS) : QS :=
  { s with chain := s.chain.map maskSub,
           running := s.running.map maskSub,
           results := s.results.map (fun p => (p.1, (none : Option Nat))) }

lemma maskQS_initQS : maskQS initQS = initQS := rfl

lemma maskQS_qstep (s : QS) (e : QEv) : maskQS (qstep s e) = qstep (maskQS s) (maskEv e) := by
  cases e with
  | submit o =>
    show maskQS (qstep s (.submit o)) = qstep (maskQS s) (.submit .ok)
    rw [qstep_submit, qstep_submit]
    simp [maskQS, maskSub]
  | restart =>
    show maskQS (qstep s .restart) = qstep (maskQS s) .restart
    rw [qstep_restart, qstep_restart]
    simp [maskQS]
  | start =>
    show maskQS (qstep s .start) = qstep (maskQS s) .start
    cases hr : s.running with
    | some rsub =>
      rw [qstep_start_busy s rsub hr,
          qstep_start_busy (maskQS s) (maskSub rsub) (by simp [maskQS, hr])]
    | none =>
      have hr' : (maskQS s).running = none := by simp [maskQS, hr]
      cases hc : s.chain with
      | nil =>
        rw [qstep_start_idle s hc, qstep_start_idle (maskQS s) (by simp [maskQS, hc])]
      | cons hd t =>
        have hc' : (maskQS s).chain = maskSub hd :: t.map maskSub := by simp [maskQS, hc]
        by_cases hg : s.generation = hd.gen
        · rw [qstep_start_hit s hd t hr hc hg,
              qstep_start_hit (maskQS s) (maskSub hd) (t.map maskSub) hr' hc'
                (by simpa [maskQS, maskSub] using hg)]
          simp [maskQS, maskSub]
        · rw [qstep_start_skip s hd t hr hc hg,
              qstep_start_skip (maskQS s) (maskSub hd) (t.map maskSub) hr' hc'
                (by simpa [maskQS, maskSub] using hg)]
          simp [maskQS, maskSub]
  | finish =>
    show maskQS (qstep s .finish) = qstep (maskQS s) .finish
    cases hr : s.running with
    | some rsub =>
      rw [qstep_finish_some s rsub hr,
          qstep_finish_some (maskQS s) (maskSub rsub) (by simp [maskQS, hr])]
      simp [maskQS, maskSub, callerThrow]
    | none =>
      rw [qstep_finish_none s hr, qstep_finish_none (maskQS s) (by simp [maskQS, hr])]

lemma maskQS_qrun (s : QS) (evs : List QEv) :
    maskQS (qrun s evs) = qrun (maskQS s) (evs.map maskEv) := by
  induction evs generalizing s with
  | nil => rfl
  | cons e l ih =>
    rw [qrun_cons, ih, maskQS_qstep, List.map_cons, qrun_cons]

/-- C1: for every worker and every interleaving of submissions, restarts and
event-loop steps, the operation bodies that run are invoked strictly in
submission order (the invocation log is strictly increasing in submission
ids), and the active-operation counter never exceeds one, even when later
operations are submitted before earlier ones have settled. -/
theorem performOperation_ordering_and_exclusivity (evs : List QEv) :
    ((qrun initQS evs).log.Pairwise (· < ·)) ∧ (qrun initQS evs).active ≤ 1 := by
  have h := qinv_run qinv_init evs
  refine ⟨h.log_sorted, ?_⟩
  rw [h.active_eq]
  split <;> omega

/-- C2: a wrapper submitted under generation `hd.gen` whose turn arrives when
the worker's generation differs is never invoked (its id never enters the
invocation log, in this step or any later one), yet its caller's await settles
normally (result `none`); if the generation still matches at its turn, the
body is invoked. -/
theorem performOperation_generation_skip
    (evs₁ evs₂ : List QEv) (hd : Sub) (t : List Sub)
    (hchain : (qrun initQS evs₁).chain = hd :: t)
    (hrunning : (qrun initQS evs₁).running = none) :
    ((qrun initQS evs₁).generation ≠ hd.gen →
        hd.id ∉ (qrun initQS (evs₁ ++ QEv.start :: evs₂)).log
      ∧ (hd.id, (none : Option Nat)) ∈ (qrun initQS (evs₁ ++ QEv.start :: evs₂)).results)
    ∧ ((qrun initQS evs₁).generation = hd.gen →
        hd.id ∈ (qrun initQS (evs₁ ++ [QEv.start])).log) := by
  have hinv : QInv (qrun initQS evs₁) := qinv_run qinv_init evs₁
  have hmemc : hd ∈ (qrun initQS evs₁).chain := by
    rw [hchain]; exact List.mem_cons_self hd t
  constructor
  · intro hg
    have hstep := qstep_start_skip (qrun initQS evs₁) hd t hrunning hchain hg
    have heq : qrun initQS (evs₁ ++ QEv.start :: evs₂)
        = qrun (qstep (qrun initQS evs₁) .start) evs₂ := by
      rw [qrun_append, qrun_cons]
    have hnp : NotPending (qstep (qrun initQS evs₁) .start) hd.id := by
      rw [hstep]
      refine ⟨hinv.chain_lt_next hd hmemc, ?_, ?_⟩
      · intro sub hsub
        have hsorted := hinv.chain_sorted
        rw [hchain] at hsorted
        simp only [List.map_cons, List.pairwise_cons] at hsorted
        have hlt := hsorted.1 sub.id (List.mem_map_of_mem Sub.id hsub)
        exact Nat.ne_of_gt hlt
      · intro sub hsub
        rw [hrunning] at hsub
        exact Option.noConfusion hsub
    have hnotlog : hd.id ∉ (qstep (qrun initQS evs₁) .start).log := by
      rw [hstep]
      intro hmem
      exact absurd (hinv.log_lt_chain hd.id hmem hd hmemc) (Nat.lt_irrefl hd.id)
    obtain ⟨-, hiff⟩ := notPending_run hnp evs₂
    constructor
    · rw [heq]
      exact fun hmem => hnotlog (hiff.1 hmem)
    · rw [heq]
      apply results_mono_run
      rw [hstep]
      exact List.mem_append.2 (Or.inr (List.mem_singleton.2 rfl))
  · intro hg
    have hstep := qstep_start_hit (qrun initQS evs₁) hd t hrunning hchain hg
    have heq : qrun initQS (evs₁ ++ [QEv.start]) = qstep (qrun initQS evs₁) .start := by
      rw [qrun_append, qrun_cons, qrun_nil]
    rw [heq, hstep]
    exact List.mem_append.2 (Or.inr (List.mem_singleton.2 rfl))

/-- Witness for C2: submit A under generation 1, force a restart, submit B;
A's wrapper is skipped (A never runs, its caller settles normally) and B runs. -/
theorem performOperation_generation_skip_witness :
    (qrun initQS [QEv.submit .ok, QEv.restart, QEv.submit .ok]).chain
        = [⟨0, 1, .ok⟩, ⟨1, 2, .ok⟩]
  ∧ (qrun initQS [QEv.submit .ok, QEv.restart, QEv.submit .ok]).running = none
  ∧ (qrun initQS [QEv.submit .ok, QEv.restart, QEv.submit .ok]).generation
        ≠ (Sub.mk 0 1 .ok).gen
  ∧ ((0 : Nat) ∉ (qrun initQS ([QEv.submit .ok, QEv.restart, QEv.submit .ok]
        ++ QEv.start :: [QEv.start, QEv.finish])).log
      ∧ ((0 : Nat), (none : Option Nat)) ∈ (qrun initQS ([QEv.submit .ok, QEv.restart,
        QEv.submit .ok] ++ QEv.start :: [QEv.start, QEv.finish])).results)
  ∧ (1 : Nat) ∈ (qrun initQS ([QEv.submit .ok, QEv.restart, QEv.submit .ok]
        ++ QEv.start :: [QEv.start, QEv.finish])).log :=
  ⟨by decide, by decide, by decide,
    (performOperation_generation_skip [QEv.submit .ok, QEv.restart, QEv.submit .ok]
      [QEv.start, QEv.finish] ⟨0, 1, .ok⟩ [⟨1, 2, .ok⟩] (by decide) (by decide)).1 (by decide),
    by decide⟩

/-- C7 counterexample: an operation body that throws a value which is not an
`Error` instance does fail, and the body does run (log `[0]`), but its
caller's await settles normally (`none`) instead of re-throwing the failure:
`performOperation` only re-throws when `result instanceof Error`. -/
theorem performOperation_swallows_nonError_throw :
    (qrun initQS [QEv.submit (.throwVal 7), QEv.start, QEv.finish]).log = [0]
  ∧ (qrun initQS [QEv.submit (.throwVal 7), QEv.start, QEv.finish]).results = [(0, none)]
  ∧ Outcome.throwVal 7 ≠ Outcome.ok := by decide

/-- C7 (amended): when a running body settles, its caller observes exactly
`callerThrow` of the body's behaviour — a thrown `Error` instance is re-thrown
to the caller, a normal return (and also a thrown non-Error value) settles the
caller normally — and the bodies that get invoked are entirely independent of
whether earlier operations failed: erasing every failure leaves the
invocation log unchanged, so a failing operation never prevents subsequently
queued operations from running. -/
theorem performOperation_result_propagation (evs : List QEv) (rsub : Sub)
    (hrunning : (qrun initQS evs).running = some rsub) :
    ((qrun initQS (evs ++ [QEv.finish])).results
        = (qrun initQS evs).results ++ [(rsub.id, callerThrow rsub.outcome)])
  ∧ (∀ c, callerThrow (.throwErr c) = some c)
  ∧ callerThrow .ok = none
  ∧ ((qrun initQS (evs.map maskEv)).log = (qrun initQS evs).log) := by
  refine ⟨?_, fun c => rfl, rfl, ?_⟩
  · rw [qrun_append, qrun_cons, qrun_nil, qstep_finish_some _ rsub hrunning]
  · conv_lhs => rw [← maskQS_initQS]
    rw [← maskQS_qrun]
    rfl

/-- Witness for C7 (amended): a single operation throwing the `Error` 5 is
running; after it settles its caller re-throws exactly that failure. -/
theorem performOperation_result_propagation_witness :
    (qrun initQS [QEv.submit (.throwErr 5), QEv.start]).running = some ⟨0, 1, .throwErr 5⟩
  ∧ (qrun initQS ([QEv.submit (.throwErr 5), QEv.start] ++ [QEv.finish])).results
      = (qrun initQS [QEv.submit (.throwErr 5), QEv.start]).results ++ [(0, some 5)] :=
  ⟨by decide,
    (performOperation_result_propagation [QEv.submit (.throwErr 5), QEv.start]
      ⟨0, 1, .throwErr 5⟩ (by decide)).1⟩

/-! ## Resource pool admission: `ApplicationPool.acquire`

`acquire` first consults the pool (`this._pool.pop()`, the JS array `pop`
taking the most-recently-pushed worker), then the `mustUsePool` flag, then
the out-of-capacity flag `this.oom`; only the final fall-through runs the
provisioning sequence (`mkdtemp`, settings, extensions, `app.start()`). -/

/-- Outcome of the admission phase of `ApplicationPool.acquire`. -/
inductive AcquireOutcome
  | fromPool (app : Nat) (rest : List Nat)
  | errMustUsePool
  | errAtCapacity
  | provision
deriving DecidableEq, Repr

/-- `ApplicationPool.acquire(options, mustUsePool)` (admission phase). -/
def acquire (pool : List Nat) (oom mustUsePool : Bool) : AcquireOutcome :=
  match pool.getLast? with
  | some app => .fromPool app pool.dropLast
  | none =>
    if mustUsePool then .errMustUsePool
    else if oom then .errAtCapacity
    else .provision

/-- C4 counterexample: with the out-of-capacity flag set but a non-empty
pool, `acquire` does not fail with the capacity error — the pool check comes
first, so it hands out the pooled worker. -/
theorem acquire_oom_with_nonempty_pool_succeeds :
    acquire [5] true false = .fromPool 5 [] ∧ acquire [5] true false ≠ .errAtCapacity := by
  decide

/-- C4 (amended): against an empty pool, `acquire` with `mustUsePool` set
fails with the admission error whatever the out-of-capacity flag says — the
throw precedes every provisioning step, so no worker is provisioned and no
state is touched — and `acquire` without `mustUsePool` while the
out-of-capacity flag is set fails with the capacity-exceeded error. -/
theorem acquire_admission_control (oom : Bool) :
    acquire [] oom true = .errMustUsePool
  ∧ acquire [] true false = .errAtCapacity
  ∧ acquire [] oom true ≠ .provision := by
  cases oom <;> exact ⟨rfl, rfl, by decide⟩

/-! ## Memory-pressure monitor: `_monitorMemoryPressure` / `_disposeBatch` -/

/-- Notifications emitted by a memory-pressure tick. -/
inductive MemNotif
  | oomNotif
  | disposedNotif (n : Nat)
deriving DecidableEq, Repr

/-- One tick of `_monitorMemoryPressure` combined with `_disposeBatch`.
`oomOld` is the flag before the tick; the tick assigns `this.oom = false`
before testing the threshold, so the outcome never depends on it.  The float
test `memFree / memTotal < 0.25` is expressed integrally as
`4 * memFree < memTotal` (0.25 and the quotient at the boundary are exact in
binary floating point); `Math.ceil(length * 0.25)` is `(length + 3) / 4`
exactly; `splice(-batchSize, batchSize)` removes the last `batchSize`
elements, keeping the first `length - batchSize`.  Returns the surviving
pool, the new flag, and the notification raised. -/
def memoryPressureTick (_oomOld : Bool) (pool : List Nat) (memFree memTotal : Nat) :
    List Nat × Bool × Option MemNotif :=
  if 4 * memFree < memTotal then
    if min ((pool.length + 3) / 4) pool.length = 0 then
      (pool.take (pool.length - (pool.length + 3) / 4), true, some .oomNotif)
    else
      (pool.take (pool.length - (pool.length + 3) / 4), false,
        some (.disposedNotif (min ((pool.length + 3) / 4) pool.length)))
  else (pool, false, none)

/-- C5: the out-of-capacity flag is cleared up front (the tick's outcome is
independent of the incoming flag); on a trip, exactly `⌈idle/4⌉` idle workers
are evicted; with an empty batch (0 idle workers) nothing is evicted, the
flag becomes true and the out-of-capacity notification fires; otherwise the
flag stays cleared and the disposed-N notification carries the exact count;
with no trip nothing changes and the flag is left cleared. -/
theorem memoryPressureTick_spec (oomOld oomOld' : Bool) (pool : List Nat)
    (memFree memTotal : Nat) :
    (memoryPressureTick oomOld pool memFree memTotal
        = memoryPressureTick oomOld' pool memFree memTotal)
  ∧ (4 * memFree < memTotal →
      (pool.length - (memoryPressureTick oomOld pool memFree memTotal).1.length
          = (pool.length + 3) / 4)
      ∧ (pool = [] →
          memoryPressureTick oomOld pool memFree memTotal = ([], true, some .oomNotif))
      ∧ (pool ≠ [] →
          (memoryPressureTick oomOld pool memFree memTotal).2.1 = false
        ∧ (memoryPressureTick oomOld pool memFree memTotal).2.2
            = some (.disposedNotif ((pool.length + 3) / 4))))
  ∧ (¬ 4 * memFree < memTotal →
      memoryPressureTick oomOld pool memFree memTotal = (pool, false, none)) := by
  refine ⟨rfl, fun htrip => ⟨?_, fun hnil => ?_, fun hne => ?_⟩, fun hno => ?_⟩
  · by_cases hz : pool.length = 0
    · have hmin : min ((pool.length + 3) / 4) pool.length = 0 := by omega
      simp only [memoryPressureTick, if_pos htrip, if_pos hmin, List.length_take]
      omega
    · have hmin : ¬ min ((pool.length + 3) / 4) pool.length = 0 := by omega
      simp only [memoryPressureTick, if_pos htrip, if_neg hmin, List.length_take]
      omega
  · subst hnil
    simp [memoryPressureTick, htrip]
  · have hz : pool.length ≠ 0 := fun h => hne (List.eq_nil_of_length_eq_zero h)
    have hle : (pool.length + 3) / 4 ≤ pool.length := by omega
    have hmin : ¬ min ((pool.length + 3) / 4) pool.length = 0 := by omega
    simp only [memoryPressureTick, if_pos htrip, if_neg hmin]
    simp [Nat.min_eq_left hle]
  · simp [memoryPressureTick, hno]

/-- Witness for C5: 10 idle workers, memory trip: exactly 3 are evicted;
0 idle workers, memory trip: the flag turns on, nothing is evicted. -/
theorem memoryPressureTick_spec_witness :
    (4 * 1 < 10)
  ∧ ((List.range 10).length
        - (memoryPressureTick false (List.range 10) 1 10).1.length = ((List.range 10).length + 3) / 4)
  ∧ ((List.range 10).length + 3) / 4 = 3
  ∧ memoryPressureTick true ([] : List Nat) 1 10 = ([], true, some .oomNotif) :=
  ⟨by decide,
    ((memoryPressureTick_spec false false (List.range 10) 1 10).2.1 (by decide)).1,
    by decide,
    ((memoryPressureTick_spec true true ([] : List Nat) 1 10).2.1 (by decide)).2.1 rfl⟩

/-! ## Pool capacity across overlapping releases: `ApplicationPool.release`

`release(app)` reads `this._pool.length` synchronously to choose between
restart-and-requeue and dispose, but the requeue
(`performOperation(() => app.restart()).then(() => this._pool.push(app))`)
pushes only after the asynchronous restart settles, without re-checking the
capacity.  The events below are the atomic slices of that code. -/

/-- Pool state across `release`/`acquire`: idle pool, capacity, and queued
release continuations whose push has not run yet. -/
structure PoolReleaseState where
  pool : List Nat
  maxPoolSize : Nat
  pending : List Nat
deriving DecidableEq, Repr

/-- Atomic slices: the synchronous part of `release on app` (capacity check and
queueing), a queued restart settling (its continuation pushes
unconditionally), and the synchronous pool pop of `acquire`. -/
inductive PoolEv
  | releaseCall (app : Nat)
  | restartDone
  | acquirePop
deriving DecidableEq, Repr

def poolStep (s : PoolReleaseState) : PoolEv → PoolReleaseState
  | .releaseCall app =>
    if s.pool.length < s.maxPoolSize then { s with pending := s.pending ++ [app] }
    else s
  | .restartDone =>
    match s.pending with
    | [] => s
    | app :: rest => { s with pending := rest, pool := s.pool ++ [app] }
  | .acquirePop => { s with pool := s.pool.dropLast }

def poolRun (s : PoolReleaseState) (evs : List PoolEv) : PoolReleaseState :=
  evs.foldl poolStep s

/-- C10: the claimed invariant `idle pool size ≤ capacity` is violated by the
code.  With capacity 1 and an empty pool, two overlapping `release` calls both
pass the synchronous capacity check (0 < 1) before either deferred push runs;
once both restarts settle the pool holds two idle workers. -/
theorem pool_capacity_bound_violated :
    (poolRun ⟨[], 1, []⟩
        [.releaseCall 1, .releaseCall 2, .restartDone, .restartDone]).pool = [1, 2]
  ∧ (poolRun ⟨[], 1, []⟩
        [.releaseCall 1, .releaseCall 2, .restartDone, .restartDone]).maxPoolSize = 1 := by
  decide

/-! ## Lease finalization: `Server.finalizeLease` -/

/-- The slice of a `Lease` that `finalizeLease` reads. -/
structure LeaseModel where
  liveShareUrl : String
  appId : Nat
  extensionsPath : String
  cacheDir : String
deriving DecidableEq, Repr

/-- The slice of `Server`, `ApplicationPool` and filesystem state that
`finalizeLease` touches: the lease map, the reverse index keyed by extensions
path, the idle pool and its capacity, the queued release continuations, and
the set of existing lease cache directories. -/
structure ServerState where
  leases : List (String × Nat)
  extensionsPathMap : List (String × Nat)
  pool : List Nat
  maxPoolSize : Nat
  pendingReleases : List Nat
  cacheDirs : List String
deriving DecidableEq, Repr

/-- `ApplicationPool.release(app)`: below capacity, queue a restart whose
continuation pushes the worker back once it settles (the push is
unconditional — by the queue semantics above even a skipped restart settles
normally); at capacity, stop the worker instead. -/
def releaseApp (s : ServerState) (app : Nat) : ServerState :=
  if s.pool.length < s.maxPoolSize then
    { s with pendingReleases := s.pendingReleases ++ [app] }
  else s

/-- `Server.finalizeLease(lease)` with a non-null lease: delete the lease map
entry and the reverse-index entry, release the worker, and remove the cache
directory (`rm` with `force: true` succeeds whether or not it still exists). -/
def finalizeLease (s : ServerState) (l : LeaseModel) : ServerState :=
  let s1 := { s with
    leases := s.leases.filter (fun p => p.1 != l.liveShareUrl),
    extensionsPathMap := s.extensionsPathMap.filter (fun p => p.1 != l.extensionsPath) }
  let s2 := releaseApp s1 l.appId
  { s2 with cacheDirs := s2.cacheDirs.filter (fun d => d != l.cacheDir) }

/-- Quiescence: every queued release continuation settles and pushes. -/
def settleReleases (s : ServerState) : ServerState :=
  { s with pool := s.pool ++ s.pendingReleases, pendingReleases := [] }

/-- Shape of one `finalizeLease` call while the pool is below capacity. -/
lemma finalizeLease_eq (s : ServerState) (l : LeaseModel)
    (hcap : s.pool.length < s.maxPoolSize) :
    finalizeLease s l =
      { s with leases := s.leases.filter (fun p => p.1 != l.liveShareUrl),
               extensionsPathMap :=
                 s.extensionsPathMap.filter (fun p => p.1 != l.extensionsPath),
               pendingReleases := s.pendingReleases ++ [l.appId],
               cacheDirs := s.cacheDirs.filter (fun d => d != l.cacheDir) } := by
  simp [finalizeLease, releaseApp, hcap]

/-- A server holding exactly one lease for worker 7. -/
def oneLeaseServer : ServerState :=
  { leases := [("u", 7)], extensionsPathMap := [("e", 7)], pool := [],
    maxPoolSize := 3, pendingReleases := [], cacheDirs := ["d"] }

/-- The lease held by `oneLeaseServer`. -/
def exampleLease : LeaseModel :=
  { liveShareUrl := "u", appId := 7, extensionsPath := "e", cacheDir := "d" }

/-- C3 counterexample: calling `finalizeLease` twice releases the worker
twice; after the queued releases settle, the worker sits in the pool twice,
so the state differs from a single call — `finalizeLease` is not idempotent. -/
theorem finalizeLease_not_idempotent :
    settleReleases (finalizeLease (finalizeLease oneLeaseServer exampleLease) exampleLease)
      ≠ settleReleases (finalizeLease oneLeaseServer exampleLease)
  ∧ (settleReleases (finalizeLease (finalizeLease oneLeaseServer exampleLease)
        exampleLease)).pool = [7, 7]
  ∧ (settleReleases (finalizeLease oneLeaseServer exampleLease)).pool = [7] := by
  decide

/-- C3 (amended): a single `finalizeLease` call removes the lease entry, the
reverse-index entry and the cache directory, and queues the worker's release
back to the pool; the two map removals and the directory removal are
idempotent across a second call, but each call queues the release again, so
a second call sends the worker into the pool a second time. -/
theorem finalizeLease_effects (s : ServerState) (l : LeaseModel)
    (hcap : s.pool.length < s.maxPoolSize) :
    (finalizeLease s l).leases = s.leases.filter (fun p => p.1 != l.liveShareUrl)
  ∧ (finalizeLease s l).extensionsPathMap
      = s.extensionsPathMap.filter (fun p => p.1 != l.extensionsPath)
  ∧ (finalizeLease s l).cacheDirs = s.cacheDirs.filter (fun d => d != l.cacheDir)
  ∧ (finalizeLease s l).pendingReleases = s.pendingReleases ++ [l.appId]
  ∧ (finalizeLease (finalizeLease s l) l).leases = (finalizeLease s l).leases
  ∧ (finalizeLease (finalizeLease s l) l).extensionsPathMap
      = (finalizeLease s l).extensionsPathMap
  ∧ (finalizeLease (finalizeLease s l) l).cacheDirs = (finalizeLease s l).cacheDirs
  ∧ (finalizeLease (finalizeLease s l) l).pendingReleases
      = s.pendingReleases ++ [l.appId, l.appId] := by
  have h1 := finalizeLease_eq s l hcap
  have hcap2 : (finalizeLease s l).pool.length < (finalizeLease s l).maxPoolSize := by
    rw [h1]; exact hcap
  have h2 := finalizeLease_eq (finalizeLease s l) l hcap2
  rw [h2, h1]
  refine ⟨rfl, rfl, rfl, rfl, ?_, ?_, ?_, ?_⟩ <;>
    simp [List.filter_filter, List.append_assoc]

/-- Witness for C3 (amended): on the one-lease server (pool below capacity),
a second call doubles the queued release. -/
theorem finalizeLease_effects_witness :
    oneLeaseServer.pool.length < oneLeaseServer.maxPoolSize
  ∧ (finalizeLease (finalizeLease oneLeaseServer exampleLease) exampleLease).pendingReleases
      = oneLeaseServer.pendingReleases ++ [exampleLease.appId, exampleLease.appId] :=
  ⟨by decide,
    (finalizeLease_effects oneLeaseServer exampleLease (by decide)).2.2.2.2.2.2.2⟩

/-! ## RPC channel: `ExtensionClient.sendCommand` and the inbound handler

`sendCommand` assigns `(this._nextID++).toString()` (ids start at 1; the
stringification is a bijection, so ids stay naturals here), records
`{command, resolve, reject}` in `_requestMap`, sends the frame and arms a
deadline that — only if the id is still pending — deletes the entry and
rejects with the timeout error.  The `message` listener looks the inbound id
up; a hit resolves or rejects (by the truthiness of `error`) and deletes the
entry; a miss does nothing at all. -/

/-- Caller-visible settlement of one RPC request. -/
inductive RpcSettle
  | resolved (payload : Nat)
  | rejectedRemote (payload : Nat)
  | timedOut (command : String)
deriving DecidableEq, Repr

/-- Channel state: id counter, pending map, settled requests. -/
structure RpcState where
  nextID : Nat
  reqMap : List (Nat × String)
  settled : List (Nat × RpcSettle)
deriving DecidableEq, Repr

/-- A freshly constructed `ExtensionClient`. -/
def initRpc : RpcState := { nextID := 1, reqMap := [], settled := [] }

/-- The default response deadline in milliseconds (`_timeoutMillis`). -/
def timeoutMillis : Nat := 30000

/-- Channel events: a `sendCommand` call, the deadline timer for `id`
firing, and an inbound response frame `{id, result, error}` (`err = some e`
models a truthy `error` field). -/
inductive RpcEv
  | send (command : String)
  | fireDeadline (id : Nat)
  | inbound (id : Nat) (err : Option Nat) (payload : Nat)
deriving DecidableEq, Repr

def rpcStep (s : RpcState) : RpcEv → RpcState
  | .send cmd =>
    { s with nextID := s.nextID + 1, reqMap := s.reqMap ++ [(s.nextID, cmd)] }
  | .fireDeadline id =>
    match s.reqMap.lookup id with
    | some cmd =>
      { s with reqMap := s.reqMap.filter (fun p => p.1 != id),
               settled := s.settled ++ [(id, .timedOut cmd)] }
    | none => s
  | .inbound id err payload =>
    match s.reqMap.lookup id with
    | some _ =>
      { s with reqMap := s.reqMap.filter (fun p => p.1 != id),
               settled := s.settled ++
                 [(id, match err with
                       | some e => .rejectedRemote e
                       | none => .resolved payload)] }
    | none => s

def rpcRun (s : RpcState) (evs : List RpcEv) : RpcState := evs.foldl rpcStep s

/-- C6: when the deadline fires while the request is still pending (no
matching response arrived inside the window, whose default is 30000 ms), the
pending entry is removed and that caller rejects with the timeout error; an
inbound response whose id has no pending entry — for instance one that
already timed out — leaves the entire channel state unchanged, so it has no
effect on any other pending request. -/
theorem sendCommand_timeout_and_discard (s : RpcState) (id : Nat) (cmd : String)
    (err : Option Nat) (payload : Nat) :
    (s.reqMap.lookup id = some cmd →
        (rpcStep s (.fireDeadline id)).reqMap = s.reqMap.filter (fun p => p.1 != id)
      ∧ (rpcStep s (.fireDeadline id)).settled = s.settled ++ [(id, .timedOut cmd)])
  ∧ (s.reqMap.lookup id = none → rpcStep s (.inbound id err payload) = s)
  ∧ timeoutMillis = 30000 := by
  refine ⟨fun h => ?_, fun h => ?_, rfl⟩
  · simp [rpcStep, h]
  · simp [rpcStep, h]

/-- Witness for C6: one `stat` request is sent; its deadline fires and the
caller times out; the response that then arrives for the same id is
discarded without changing anything. -/
theorem sendCommand_timeout_and_discard_witness :
    (rpcRun initRpc [.send "stat"]).reqMap.lookup 1 = some "stat"
  ∧ (rpcStep (rpcRun initRpc [.send "stat"]) (.fireDeadline 1)).settled
      = (rpcRun initRpc [.send "stat"]).settled ++ [(1, .timedOut "stat")]
  ∧ (rpcRun initRpc [.send "stat", .fireDeadline 1]).reqMap.lookup 1 = none
  ∧ rpcStep (rpcRun initRpc [.send "stat", .fireDeadline 1]) (.inbound 1 none 42)
      = rpcRun initRpc [.send "stat", .fireDeadline 1] :=
  ⟨by decide,
    ((sendCommand_timeout_and_discard (rpcRun initRpc [.send "stat"]) 1 "stat" none 42).1
      (by decide)).2,
    by decide,
    (sendCommand_timeout_and_discard (rpcRun initRpc [.send "stat", .fireDeadline 1])
      1 "stat" none 42).2.1 (by decide)⟩

/-! ## Path probing: `ExtensionClient.stat` / `findValidPaths`, composed with
the remote normalization in `fsproxy/src/client.ts` -/

/-- The remote proxy prepends a slash unless the path already starts with one
or looks like a Windows drive path (`/^[A-Za-z]:/`). -/
def remoteNormalize (p : String) : String :=
  match p.data with
  | [] => "/" ++ p
  | [c] => if c == '/' then p else "/" ++ p
  | c1 :: c2 :: _ =>
    if c1 == '/' then p
    else if c1.isAlpha && c2 == ':' then p
    else "/" ++ p

/-- Whether the remote `stat` command succeeds, as a function of the set `fs`
of paths existing on the remote side. -/
def remoteStatOk (fs : String → Bool) (p : String) : Bool := fs (remoteNormalize p)

/-- Split a character list at slashes or backslashes; `cur` accumulates the
current component in reverse.  The empty string splits to `[""]`, matching
`''.split(...)` in JavaScript (the loop never reaches it anyway). -/
def splitPathChars : List Char → List Char → List String
  | [], cur => [String.mk cur.reverse]
  | c :: rest, cur =>
    if c == '/' || c == '\\' then String.mk cur.reverse :: splitPathChars rest []
    else splitPathChars rest (c :: cur)

/-- `path.split(/[\/\\]/)`. -/
def splitPath (p : String) : List String :=
  splitPathChars p.data []

/-- Remove the first path component: split on slashes, shift, join with `/`. -/
def stripFirstComponent (p : String) : String :=
  "/".intercalate ((splitPath p).drop 1)

/-- The `while (path && existingPaths.length < maxPaths)` loop of
`findValidPaths`: each iteration probes the current path — the first
iteration probes the original, just-failed path — appends it to the
accumulator if the remote accepts it, and strips the leading component.
The loop is written with fuel; the path's length strictly decreases each
iteration, so fuel `p.length + 1` outlasts the loop. -/
def findValidPathsAux (fs : String → Bool) :
    Nat → String → Nat → List String → List String
  | 0, _, _, acc => acc
  | fuel + 1, path, maxPaths, acc =>
    if path = "" || maxPaths ≤ acc.length then acc
    else
      findValidPathsAux fs fuel (stripFirstComponent path) maxPaths
        (if remoteStatOk fs path then acc ++ [path] else acc)

/-- `ExtensionClient.findValidPaths(path, maxPaths)`. -/
def findValidPaths (fs : String → Bool) (path : String) (maxPaths : Nat) : List String :=
  findValidPathsAux fs (path.length + 1) path maxPaths []

/-- `ExtensionClient.stat`: `none` when the primary query succeeds; otherwise
the `SafeError`'s message and sensitive flag, with the probe suggestions
appended when any probe succeeded. -/
def statFailure (fs : String → Bool) (p : String) : Option (String × Bool) :=
  if remoteStatOk fs p then none
  else
    let existingPaths := findValidPaths fs p 3
    if existingPaths.length > 0 then
      some ("File not found" ++ ". Did you mean: " ++ ", ".intercalate existingPaths, true)
    else
      some ("File not found", false)

/-- The remote filesystem of the spec's example: only `/b/c` exists. -/
def exampleFs : String → Bool := fun p => p == "/b/c"

/-- C8 counterexample: for the missing path `/a/b/c` with `/b/c` existing,
the probes are `/a/b/c`, `a/b/c`, `b/c`, `c`; the relative probe `b/c`
succeeds only because the remote side re-adds the leading slash, and the
suggestion recorded in the error message is the stripped string `b/c` —
`/b/c` itself is not among the suggestions, so the message does not list
`/b/c`. -/
theorem stat_suggestion_example :
    findValidPaths exampleFs "/a/b/c" 3 = ["b/c"]
  ∧ "/b/c" ∉ findValidPaths exampleFs "/a/b/c" 3
  ∧ statFailure exampleFs "/a/b/c"
      = some ("File not found. Did you mean: b/c", true) := by
  refine ⟨by decide, by decide, by decide⟩

lemma findValidPathsAux_mem {fs : String → Bool} {fuel : Nat} {path : String}
    {maxPaths : Nat} {acc : List String} {q : String}
    (hq : q ∈ findValidPathsAux fs fuel path maxPaths acc) :
    q ∈ acc ∨ (remoteStatOk fs q = true ∧ ∃ k, q = stripFirstComponent^[k] path) := by
  induction fuel generalizing path acc with
  | zero => exact Or.inl hq
  | succ fuel ih =>
    rw [findValidPathsAux] at hq
    by_cases hguard : path = "" || maxPaths ≤ acc.length
    · rw [if_pos hguard] at hq
      exact Or.inl hq
    · rw [if_neg hguard] at hq
      rcases ih hq with hacc | ⟨hok, k, hk⟩
      · by_cases hstat : remoteStatOk fs path
        · rw [if_pos hstat] at hacc
          rcases List.mem_append.1 hacc with hl | hl
          · exact Or.inl hl
          · simp only [List.mem_singleton] at hl
            subst hl
            exact Or.inr ⟨hstat, 0, rfl⟩
        · rw [if_neg hstat] at hacc
          exact Or.inl hacc
      · exact Or.inr ⟨hok, k + 1, by rw [hk, Function.iterate_succ_apply]⟩

lemma findValidPathsAux_length {fs : String → Bool} {fuel : Nat} {path : String}
    {maxPaths : Nat} {acc : List String} (h : acc.length ≤ maxPaths) :
    (findValidPathsAux fs fuel path maxPaths acc).length ≤ maxPaths := by
  induction fuel generalizing path acc with
  | zero => exact h
  | succ fuel ih =>
    rw [findValidPathsAux]
    by_cases hguard : path = "" || maxPaths ≤ acc.length
    · rw [if_pos hguard]
      exact h
    · rw [if_neg hguard]
      simp only [Bool.or_eq_true, decide_eq_true_eq, not_or, not_le] at hguard
      apply ih
      by_cases hstat : remoteStatOk fs path
      · rw [if_pos hstat, List.length_append, List.length_singleton]
        omega
      · rw [if_neg hstat]
        exact h

/-- C8 (amended): when the primary metadata query fails, the helper probes
the original path and then its progressively shorter suffixes (one leading
segment stripped per iteration) until the path is exhausted or three probes
have succeeded; every suggestion appended to the message is a probe the
remote accepted and is an iterated strip of the original path, at most three
suggestions are collected, and on the spec's example (`/a/b/c` missing,
`/b/c` existing) the message lists the suggestion as `b/c`, without the
leading slash. -/
theorem stat_suggestion_probes (fs : String → Bool) (p : String) :
    (∀ q ∈ findValidPaths fs p 3, remoteStatOk fs q = true)
  ∧ (∀ q ∈ findValidPaths fs p 3, ∃ k, q = stripFirstComponent^[k] p)
  ∧ (findValidPaths fs p 3).length ≤ 3
  ∧ statFailure exampleFs "/a/b/c"
      = some ("File not found. Did you mean: b/c", true) := by
  refine ⟨fun q hq => ?_, fun q hq => ?_, ?_, by decide⟩
  · rcases findValidPathsAux_mem hq with hacc | ⟨hok, -⟩
    · exact absurd hacc (List.not_mem_nil q)
    · exact hok
  · rcases findValidPathsAux_mem hq with hacc | ⟨-, hk⟩
    · exact absurd hacc (List.not_mem_nil q)
    · exact hk
  · exact findValidPathsAux_length (by simp)

/-- Witness for C8 (amended): the probe `b/c` collected for `/a/b/c` is
accepted by the remote (it normalizes to `/b/c`). -/
theorem stat_suggestion_probes_witness :
    ("b/c" ∈ findValidPaths exampleFs "/a/b/c" 3)
  ∧ remoteStatOk exampleFs "b/c" = true :=
  ⟨by decide, (stat_suggestion_probes exampleFs "/a/b/c").1 "b/c" (by decide)⟩

/-! ## Error flags: `SafeError`, `sanitizeError`, `handleErrors` -/

/-- A JavaScript error value as the handler sees it: whether it is a
`SafeError`, its `recoverable` property (`none` = property absent, as on a
plain `Error`), its sensitive flag and HTTP status. -/
structure ModelError where
  isSafeError : Bool
  recoverable : Option Bool
  sensitive : Bool
  status : Nat
deriving DecidableEq, Repr

/-- Options accepted by the `SafeError` constructor. -/
structure SafeErrorOpts where
  recoverable : Option Bool
  sensitive : Bool
  status : Option Nat
deriving DecidableEq, Repr

/-- The `SafeError` constructor:
`this.recoverable = args[0].recoverable ?? true`, status defaulting to 400,
`sensitive` set only when passed truthy. -/
def mkSafeError (opts : SafeErrorOpts) : ModelError :=
  { isSafeError := true, recoverable := some (opts.recoverable.getD true),
    sensitive := opts.sensitive, status := opts.status.getD 400 }

/-- `sanitizeError`: a `SafeError` passes through unchanged; anything else is
wrapped in a 500 `SafeError` whose `recoverable` is `error.recoverable ?? false`
(the code comments this "all errors considered fatal by default"). -/
def sanitizeError (e : ModelError) : ModelError :=
  if e.isSafeError then e
  else { isSafeError := true, recoverable := some (e.recoverable.getD false),
         sensitive := false, status := 500 }

/-- The `catch` clause of `handleErrors` runs `finalizeLease` when
`!error.recoverable`, i.e. when the property is `false` or absent. -/
def handlerFinalizes (e : ModelError) : Bool := !(e.recoverable.getD false)

/-- A plain `Error` that is not a `SafeError`: no `recoverable` property. -/
def plainError : ModelError :=
  { isSafeError := false, recoverable := none, sensitive := false, status := 500 }

/-- C9 counterexample: a plain `Error` carries no recoverable flag at all —
in particular it is not explicitly marked unrecoverable, so under the claim
its default would be recoverable — yet the handler finalizes the lease for
it, because `!undefined` is truthy. -/
theorem handler_finalizes_unmarked_error :
    handlerFinalizes plainError = true
  ∧ plainError.recoverable ≠ some false
  ∧ plainError.recoverable ≠ some true := by decide

/-- C9 (amended): an error constructed through `SafeError` carries a
recoverable flag defaulting to true unless explicitly passed false; the
wrapping handler finalizes the lease exactly when the error's `recoverable`
property is not `true` — explicitly false, or absent as on non-`SafeError`
errors (which `sanitizeError` likewise wraps with `recoverable = false`) —
and the decision is independent of the sensitive flag. -/
theorem handler_finalize_policy (opts : SafeErrorOpts) (e : ModelError) (b : Bool) :
    (mkSafeError opts).recoverable = some (opts.recoverable.getD true)
  ∧ (handlerFinalizes e = true ↔ e.recoverable ≠ some true)
  ∧ handlerFinalizes { e with sensitive := b } = handlerFinalizes e
  ∧ (sanitizeError plainError).recoverable = some false := by
  refine ⟨rfl, ?_, rfl, rfl⟩
  cases he : e.recoverable with
  | none => simp [handlerFinalizes, he]
  | some v => cases v <;> simp [handlerFinalizes, he]

end Codeulator
